import Mathlib

/-!
Verification of the GBMoney import-ingestion pipeline.

Shallow embedding of the import controller (CSV row transformation:
`parseAmount`, `parseDate`, `determineTypeGBMoney`; batch persistence:
`processBatchStreamingAsync`; preview/status authorization) and of the
streaming session tracker (`startImportSession`, `updateProgress`,
`addError`, `completeImportSession`).

Conventions of the embedding:
* JS strings are Lean `String`s, usually manipulated through `String.data`
  (`List Char`).  A JS `undefined`/missing cell is the empty string, which
  is exactly the set of falsy string values tested by the source's
  `if (!x)` guards.
* JS numbers for money and time are modelled as `ℚ`; row counters are `ℕ`;
  `Math.round` results are `ℤ`.
* Fallible JS code (functions that `throw`) returns `Except`/sum types.
* The `Date` constructor is modelled by the proleptic-Gregorian civil
  calendar arithmetic (`daysFromCivil`/`civilFromDays`), which reproduces
  the ECMAScript month/day normalization (`new Date(2024, 24, 12)` rolls
  over to January 2026, etc.).  Time zones do not matter for the claims.
-/

deriving instance DecidableEq for Except

namespace GBMoney

/-! ## JS character primitives -/

/-- The whitespace class used by the source's `\s` regex and `trim`
(ASCII fragment; the claims involve no exotic Unicode whitespace). -/
def jsWhitespace (c : Char) : Bool :=
  c = ' ' || c = '\t' || c = '\n' || c = '\r'

/-- Numeric value of a decimal digit character. -/
def digitVal (c : Char) : Nat := c.toNat - 48

/-- Value of a list of decimal digit characters, most significant first
(`parseInt` on an all-digit string, and the integer part of `parseFloat`). -/
def digitsVal (cs : List Char) : Nat :=
  cs.foldl (fun a c => a * 10 + digitVal c) 0

/-- JS `trim`: drop whitespace from both ends. -/
def jsTrim (cs : List Char) : List Char :=
  ((cs.dropWhile jsWhitespace).reverse.dropWhile jsWhitespace).reverse

/-- Split a character list at every occurrence of `sep`
(JS `String.prototype.split` with a single-character separator). -/
def splitChar (sep : Char) : List Char → List (List Char)
  | [] => [[]]
  | c :: rest =>
    match splitChar sep rest with
    | [] => [[]]
    | g :: gs => if c = sep then [] :: g :: gs else (c :: g) :: gs

/-! ## parseFloat -/

/-- Optional leading sign of a JS numeric literal; returns the sign and the
remaining characters. -/
def jsSign : List Char → Bool × List Char
  | '-' :: r => (true, r)
  | '+' :: r => (false, r)
  | cs => (false, cs)

/-- Exponent suffix of a JS numeric literal (`e`/`E`, optional sign,
digits); an ill-formed suffix contributes no exponent, matching
`parseFloat`'s longest-valid-prefix semantics. -/
def parseExp (cs : List Char) : Int :=
  match cs with
  | c :: rest =>
    if c = 'e' || c = 'E' then
      match rest with
      | '-' :: ds =>
        let digs := ds.takeWhile Char.isDigit
        if digs.isEmpty then 0 else -(digitsVal digs : Int)
      | '+' :: ds =>
        let digs := ds.takeWhile Char.isDigit
        if digs.isEmpty then 0 else (digitsVal digs : Int)
      | ds =>
        let digs := ds.takeWhile Char.isDigit
        if digs.isEmpty then 0 else (digitsVal digs : Int)
    else 0
  | [] => 0

/-- The optional `.`-plus-fraction-digits part of a JS numeric literal:
returns the fraction digits and the remaining characters. -/
def fracSplit (rest : List Char) : List Char × List Char :=
  match rest with
  | '.' :: r => (r.takeWhile Char.isDigit, r.dropWhile Char.isDigit)
  | _ => ([], rest)

/-- JS `parseFloat`: skip leading whitespace, optional sign, integer
digits, optional `.` plus fraction digits, optional exponent; the longest
valid prefix is converted and trailing junk ignored.  `none` is `NaN`
(no digits at all).  The `Infinity` literal, never produced by a CSV
amount cell, is not modelled. -/
def jsParseFloat (cs0 : List Char) : Option ℚ :=
  let cs1 := cs0.dropWhile jsWhitespace
  let sgn := jsSign cs1
  let intPart := sgn.2.takeWhile Char.isDigit
  let rest := sgn.2.dropWhile Char.isDigit
  let fp := fracSplit rest
  if intPart.isEmpty && fp.1.isEmpty then none
  else
    let e := parseExp fp.2
    let mag : ℚ := (digitsVal intPart : ℚ) + (digitsVal fp.1 : ℚ) / ((10 ^ fp.1.length : ℕ) : ℚ)
    let mag := if 0 ≤ e then mag * ((10 ^ e.toNat : ℕ) : ℚ) else mag / ((10 ^ (-e).toNat : ℕ) : ℚ)
    some (if sgn.1 then -mag else mag)

/-! ## parseAmount (importController.parseAmount) -/

/-- One step of the global regex replace `/R\$\s*/g`: `skip` records that a
`R$` match was just consumed and its trailing whitespace run is being
eaten. -/
def stripRSAux : Bool → List Char → List Char
  | _, [] => []
  | _, 'R' :: '$' :: rest => stripRSAux true rest
  | skip, c :: rest =>
    if skip && jsWhitespace c then stripRSAux true rest
    else c :: stripRSAux false rest

/-- Model of `cleaned.replace(/R\$\s*/g, '')`: remove every `R$` currency marker
together with the whitespace that follows it. -/
def stripRS (cs : List Char) : List Char := stripRSAux false cs

/-- JS `String.prototype.replace` with a plain (non-global) string
pattern: replace only the first occurrence of `a` by `b`. -/
def replaceFirst : List Char → Char → Char → List Char
  | [], _, _ => []
  | c :: rest, a, b => if c = a then b :: rest else c :: replaceFirst rest a b

/-- The cleaning pipeline of `parseAmount` before `parseFloat`: strip CSV
quotes, strip `R$`, then the Brazilian separator logic — with both `.` and
`,` present every dot (thousands separator) is removed and the first comma
becomes the decimal point; with only `,` present the first comma becomes
the decimal point — and finally `trim`. -/
def cleanAmount (s : String) : List Char :=
  let cs := s.data.filter fun c => c != '"'
  let cs := stripRS cs
  let cs :=
    if cs.contains '.' && cs.contains ',' then
      replaceFirst (cs.filter fun c => c != '.') ',' '.'
    else if cs.contains ',' && !cs.contains '.' then
      replaceFirst cs ',' '.'
    else cs
  jsTrim cs

/-- Model of `importController.parseAmount`.  A falsy (empty/absent) cell returns
`0`; an unparsable non-empty cell throws `Valor inválido`; otherwise the
absolute value of the parsed number is returned. -/
def parseAmount (s : String) : Except String ℚ :=
  if s = "" then .ok 0
  else
    match jsParseFloat (cleanAmount s) with
    | none => .error ("Valor inválido: " ++ s)
    | some q => .ok |q|

/-! ## determineTypeGBMoney (importController.determineTypeGBMoney) -/

/-- Prefix test on character lists. -/
def startsWithList : List Char → List Char → Bool
  | [], _ => true
  | _ :: _, [] => false
  | n :: ns, h :: hs => n = h && startsWithList ns hs

/-- Substring test (JS `String.prototype.includes`) on character lists. -/
def containsSub (needle : List Char) : List Char → Bool
  | [] => needle.isEmpty
  | h :: hs => startsWithList needle (h :: hs) || containsSub needle hs

/-- The two transaction types of the data model. -/
inductive BillType
  | income
  | expense
deriving DecidableEq, Repr

/-- Model of `importController.determineTypeGBMoney`, applied to the two row cells
it reads: `row[mapping.amount]` (the raw amount text) and
`row[mapping.description]`.  A leading minus sign on the raw amount means
expense; otherwise a money-received phrase in the description means
income; otherwise expense.  Lowercasing is ASCII (the fixed keyword list
is already lowercase). -/
def determineTypeGBMoney (originalAmount description : String) : BillType :=
  if originalAmount ≠ "" && originalAmount.data.head? = some '-' then
    .expense
  else
    let d := description.data.map Char.toLower
    if containsSub "pagamento recebido".data d ||
       containsSub "pix recebido".data d ||
       containsSub "ted recebido".data d ||
       containsSub "depósito".data d then
      .income
    else .expense

/-! ## JS Date model

`new Date(year, monthIndex, day)` normalizes an out-of-range month index
through the total month count and an out-of-range day by carrying whole
months (ECMAScript `MakeDay`).  The proleptic-Gregorian rules are used
throughout; time zones do not matter for the claims. -/

/-- Gregorian leap-year test on `Int` years. -/
def isLeapZ (y : Int) : Bool :=
  (y % 4 = 0 && y % 100 ≠ 0) || y % 400 = 0

/-- Days in 1-based month `m` of year `y`. -/
def daysInMonthZ (y m : Int) : Int :=
  if m = 2 then (if isLeapZ y then 29 else 28)
  else if m = 4 || m = 6 || m = 9 || m = 11 then 30
  else 31

/-- Borrow whole months while the day offset is negative.  `fuel` only
bounds the iteration; any `fuel > |off| / 28 + 1` is exact. -/
def borrowMonths : Nat → Int → Int → Int → Int × Int × Int
  | 0, y, m, off => (y, m, off)
  | fuel + 1, y, m, off =>
    if off < 0 then
      let y' := if m = 1 then y - 1 else y
      let m' := if m = 1 then (12 : Int) else m - 1
      borrowMonths fuel y' m' (off + daysInMonthZ y' m')
    else (y, m, off)

/-- Carry whole months while the day offset runs past the current month.
`fuel` only bounds the iteration; any `fuel > off / 28 + 1` is exact. -/
def carryMonths : Nat → Int → Int → Int → Int × Int × Int
  | 0, y, m, off => (y, m, off)
  | fuel + 1, y, m, off =>
    if daysInMonthZ y m ≤ off then
      let y' := if m = 12 then y + 1 else y
      let m' := if m = 12 then (1 : Int) else m + 1
      carryMonths fuel y' m' (off - daysInMonthZ y m)
    else (y, m, off)

/-- The (normalized) date part of a JS `Date`. -/
structure JSDate where
  year : Int
  /-- 1-based civil month (JS `getMonth()` would be `month - 1`). -/
  month : Int
  day : Int
deriving DecidableEq, Repr

/-- Model of `new Date(y, mIdx, d)` (date part).  The month index is normalized via
the total month count `y * 12 + mIdx`; the day `d` is taken as offset
`d - 1` from the first of that month and normalized by borrowing/carrying
months.  The fuel `|d - 1| + 1` strictly exceeds the number of month steps
any offset can need, so the result is exact for every input. -/
def jsMkDate (y mIdx d : Int) : JSDate :=
  let ym := y * 12 + mIdx
  let y0 := Int.fdiv ym 12
  let m0 := ym - y0 * 12 + 1
  let off := d - 1
  let fuel := off.natAbs + 1
  let b := borrowMonths fuel y0 m0 off
  let c := carryMonths fuel b.1 b.2.1 b.2.2
  ⟨c.1, c.2.1, c.2.2 + 1⟩

/-! ## parseDate (importController.parseDate) -/

/-- Which of the four regex branches of `parseDate` produced the result:
`D/M/YY`, `D/M/YYYY`, ISO `YYYY-MM-DD`, or the American `M/D/YYYY`
branch. -/
inductive DateBranch
  | dmy2
  | dmy4
  | iso
  | mdy
deriving DecidableEq, Repr

/-- Result of `parseDate`: `null` for a falsy input, a date tagged with
the branch that produced it, or a thrown error. -/
inductive ParsedDate
  | nullDate
  | okDate (branch : DateBranch) (date : JSDate)
  | errDate (msg : String)
deriving DecidableEq, Repr

/-- Test that `cs` consists of 1 to 2 decimal digits (one `\d{1,2}` regex group). -/
def digits1or2 (cs : List Char) : Bool :=
  cs.all Char.isDigit && decide (1 ≤ cs.length) && decide (cs.length ≤ 2)

/-- Matcher/extractor for `^\d{1,2}\/\d{1,2}\/\d{2}$` combined with the
subsequent `split('/')`: the three numeric components, or `none` when the
regex does not match. -/
def extractDDMMYY (cs : List Char) : Option (Nat × Nat × Nat) :=
  match splitChar '/' cs with
  | [a, b, c] =>
    if digits1or2 a && digits1or2 b && (c.all Char.isDigit && decide (c.length = 2)) then
      some (digitsVal a, digitsVal b, digitsVal c)
    else none
  | _ => none

/-- Matcher/extractor for `^\d{1,2}\/\d{1,2}\/\d{4}$` combined with the
subsequent `split('/')`.  This single pattern is what both the
`DD/MM/YYYY` branch and the later `MM/DD/YYYY` branch of the source test
(the two regex literals are identical). -/
def extractDDMMYYYY (cs : List Char) : Option (Nat × Nat × Nat) :=
  match splitChar '/' cs with
  | [a, b, c] =>
    if digits1or2 a && digits1or2 b && (c.all Char.isDigit && decide (c.length = 4)) then
      some (digitsVal a, digitsVal b, digitsVal c)
    else none
  | _ => none

/-- Matcher/extractor for the ISO pattern `^\d{4}-\d{2}-\d{2}$`. -/
def extractISO (cs : List Char) : Option (Nat × Nat × Nat) :=
  match splitChar '-' cs with
  | [a, b, c] =>
    if (a.all Char.isDigit && decide (a.length = 4)) &&
       (b.all Char.isDigit && decide (b.length = 2)) &&
       (c.all Char.isDigit && decide (c.length = 2)) then
      some (digitsVal a, digitsVal b, digitsVal c)
    else none
  | _ => none

/-- Whether `y` is a Gregorian leap year. -/
def isLeap (y : Nat) : Bool :=
  (y % 4 = 0 && y % 100 ≠ 0) || y % 400 = 0

/-- Days in month `m` of year `y`. -/
def daysInMonth (y m : Nat) : Nat :=
  if m = 2 then (if isLeap y then 29 else 28)
  else if m = 4 || m = 6 || m = 9 || m = 11 then 30
  else 31

/-- Model of `importController.parseDate`, instrumented with the branch that
matched.  A falsy input returns `null`; the four regex branches are tried
in source order; an unrecognized format throws.  The ISO branch
(`new Date("YYYY-MM-DD")`) validates the calendar date and an invalid one
makes the subsequent `toISOString()` log call throw. -/
def parseDateB (s : String) : ParsedDate :=
  if s = "" then .nullDate
  else
    let c := jsTrim s.data
    match extractDDMMYY c with
    | some (day, month, year) =>
      .okDate .dmy2 (jsMkDate ((year : Int) + 2000) ((month : Int) - 1) (day : Int))
    | none =>
    match extractDDMMYYYY c with
    | some (day, month, year) =>
      .okDate .dmy4 (jsMkDate (year : Int) ((month : Int) - 1) (day : Int))
    | none =>
    match extractISO c with
    | some (year, month, day) =>
      if 1 ≤ month && month ≤ 12 && 1 ≤ day && day ≤ daysInMonth year month then
        .okDate .iso ⟨(year : Int), (month : Int), (day : Int)⟩
      else .errDate "Invalid time value"
    | none =>
    match extractDDMMYYYY c with
    | some (month, day, year) =>
      .okDate .mdy (jsMkDate (year : Int) ((month : Int) - 1) (day : Int))
    | none => .errDate ("Formato de data inválido: " ++ s)

/-- Result of `parseDate` without the branch instrumentation. -/
inductive DateOut
  | nullD
  | okD (date : JSDate)
  | errD (msg : String)
deriving DecidableEq, Repr

/-- Model of `importController.parseDate` as the caller sees it. -/
def parseDate (s : String) : DateOut :=
  match parseDateB s with
  | .nullDate => .nullD
  | .okDate _ d => .okD d
  | .errDate m => .errD m

/-- Whether a `parseDate` result came from the fourth (American
`MM/DD/YYYY`) branch. -/
def reachedAmericanBranch : ParsedDate → Bool
  | .okDate .mdy _ => true
  | _ => false

/-! ## Streaming service (streamingService) -/

/-- Model of `Math.round(x)`, that is `⌊x + 1/2⌋`. -/
def jsRound (q : ℚ) : Int := Rat.floor (q + 1 / 2)

/-- One entry of a session's bounded error log
(`\x7b message, row, timestamp \x7d`). -/
structure ErrorEntry where
  message : String
  row : Option Nat
  timestamp : ℚ
deriving DecidableEq, Repr

/-- Session lifecycle status strings. -/
inductive ImportStatus
  | processing
  | finalizing
  | completed
  | failed
deriving DecidableEq, Repr

/-- Terminal result passed to `completeImportSession`: the streaming
pipeline's final result object (`success: true` with counters) or the
failure object (`success: false` with the error message). -/
inductive ImportResult
  | completedR (imported : Nat) (errors : Nat) (total : Nat) (message : String)
  | failedR (error : String)
deriving DecidableEq, Repr

/-- The `result.success` field read by `completeImportSession`. -/
def ImportResult.success : ImportResult → Bool
  | .completedR _ _ _ _ => true
  | .failedR _ => false

/-- An import session of `streamingService.importSessions`.  Times are
rational epoch milliseconds. -/
structure Session where
  uploadId : String
  userId : String
  filename : String
  totalRows : Nat
  processedRows : Nat
  successfulRows : Nat
  errorRows : Nat
  errors : List ErrorEntry
  startTime : ℚ
  status : ImportStatus
  currentBatch : Nat
  progress : Int
  estimatedTimeRemaining : Option Int
  processingSpeed : Int
  endTime : Option ℚ
  duration : Option Int
  result : Option ImportResult
deriving DecidableEq, Repr

/-- The partial update objects the pipeline passes to `updateProgress`
(`Object.assign` merge): only these five fields ever occur. -/
structure ProgressUpdate where
  processedRows : Option Nat := none
  successfulRows : Option Nat := none
  errorRows : Option Nat := none
  currentBatch : Option Nat := none
  status : Option ImportStatus := none
deriving DecidableEq, Repr

/-- The empty update object. -/
def emptyUpdate : ProgressUpdate := ⟨none, none, none, none, none⟩

/-- Model of `Object.assign(session, update)`. -/
def applyUpdate (s : Session) (u : ProgressUpdate) : Session :=
  { s with
    processedRows := u.processedRows.getD s.processedRows
    successfulRows := u.successfulRows.getD s.successfulRows
    errorRows := u.errorRows.getD s.errorRows
    currentBatch := u.currentBatch.getD s.currentBatch
    status := u.status.getD s.status }

/-- The derived percentage recomputed on every `updateProgress` call:
`Math.round((processedRows / totalRows) * 100)`. -/
def progressOf (processed total : Nat) : Int :=
  jsRound (((processed : ℚ) / (total : ℚ)) * 100)

/-- Model of `streamingService.startImportSession` (the session object it stores). -/
def startImportSession (uploadId userId : String) (totalRows : Nat)
    (filename : String) (now : ℚ) : Session :=
  { uploadId := uploadId
    userId := userId
    filename := filename
    totalRows := totalRows
    processedRows := 0
    successfulRows := 0
    errorRows := 0
    errors := []
    startTime := now
    status := .processing
    currentBatch := 0
    progress := 0
    estimatedTimeRemaining := none
    processingSpeed := 0
    endTime := none
    duration := none
    result := none }

/-- Model of `streamingService.updateProgress` on one session: merge the update,
recompute `progress`, `processingSpeed` and (when the speed is positive)
`estimatedTimeRemaining`.  Where JS division by an elapsed time of zero
yields `Infinity`, Lean's rational division yields `0`; no claim depends
on that corner. -/
def updateProgressSession (s : Session) (u : ProgressUpdate) (now : ℚ) : Session :=
  let s1 := applyUpdate s u
  let s2 := { s1 with progress := progressOf s1.processedRows s1.totalRows }
  let elapsed := (now - s2.startTime) / 1000
  let s3 := { s2 with processingSpeed := jsRound ((s2.processedRows : ℚ) / elapsed) }
  let remainingRows : Int := (s3.totalRows : Int) - (s3.processedRows : Int)
  let eta := jsRound ((remainingRows : ℚ) / (s3.processingSpeed : ℚ))
  if 0 < s3.processingSpeed then { s3 with estimatedTimeRemaining := some eta }
  else s3

/-- The error-log push of `addError`: append, then when the length exceeds
100 keep only the last 100 entries (`errors.slice(-100)`). -/
def capAppend (errors : List ErrorEntry) (e : ErrorEntry) : List ErrorEntry :=
  let es := errors ++ [e]
  if 100 < es.length then es.drop (es.length - 100) else es

/-- Model of `streamingService.addError` on one session: increment `errorRows` and
push the entry onto the bounded log (the subsequent empty
`updateProgress` call is modelled at the service level). -/
def addErrorSession (s : Session) (e : ErrorEntry) : Session :=
  { s with errorRows := s.errorRows + 1, errors := capAppend s.errors e }

/-- A message handed to `broadcastToUser` (per-socket delivery and the
client registry are outside the model: the claims are about whether a
broadcast is emitted at all, and with which session snapshot). -/
structure BroadcastMsg where
  userId : String
  msgType : String
  uploadId : String
  session : Session
deriving DecidableEq, Repr

/-- The mutable `importSessions` map (`Map<uploadId, session>`). -/
def Sessions := List (String × Session)

/-- Model of `Map.prototype.set`: insert or overwrite the binding of `k`. -/
def mapSet (m : List (String × Session)) (k : String) (v : Session) :
    List (String × Session) :=
  (k, v) :: m.filter fun p => p.1 != k

/-- Model of `streamingService.updateProgress`: a missing session returns without
any mutation or broadcast; otherwise the session is updated and one
`progress` message is broadcast to its owner. -/
def updateProgressM (sessions : List (String × Session)) (uploadId : String)
    (u : ProgressUpdate) (now : ℚ) :
    List (String × Session) × List BroadcastMsg :=
  match sessions.lookup uploadId with
  | none => (sessions, [])
  | some s =>
    let s' := updateProgressSession s u now
    (mapSet sessions uploadId s', [⟨s'.userId, "progress", uploadId, s'⟩])

/-- Model of `streamingService.addError`: a missing session returns without any
mutation or broadcast; otherwise the counters/log are updated and the
trailing `updateProgress(uploadId, \x7b\x7d)` call broadcasts. -/
def addErrorM (sessions : List (String × Session)) (uploadId : String)
    (msg : String) (row : Option Nat) (now : ℚ) :
    List (String × Session) × List BroadcastMsg :=
  match sessions.lookup uploadId with
  | none => (sessions, [])
  | some s =>
    let s' := addErrorSession s ⟨msg, row, now⟩
    updateProgressM (mapSet sessions uploadId s') uploadId emptyUpdate now

/-- Model of `streamingService.completeImportSession`: a missing session returns
without any mutation or broadcast; otherwise the terminal status is
`completed` exactly when `result.success` is truthy, the end time,
duration and result are stamped, and one `import_completed` message is
broadcast.  (The delayed deletion 5 minutes later is timer behaviour
outside this model.) -/
def completeImportSessionM (sessions : List (String × Session))
    (uploadId : String) (result : ImportResult) (now : ℚ) :
    List (String × Session) × List BroadcastMsg :=
  match sessions.lookup uploadId with
  | none => (sessions, [])
  | some s =>
    let s' := { s with
      status := if result.success then ImportStatus.completed else ImportStatus.failed
      endTime := some now
      duration := some (jsRound ((now - s.startTime) / 1000))
      result := some result }
    (mapSet sessions uploadId s', [⟨s'.userId, "import_completed", uploadId, s'⟩])

/-! ## Batch persistence (importController.processBatchStreamingAsync) -/

/-- Outcome of the persistence environment for one batch, matching the
three control-flow paths of `processBatchStreamingAsync`:

* `bulkOk saved` — `insertMany` resolved with the inserted documents
  (never more documents than were passed);
* `bulkFailFallback perRecord` — `insertMany` threw and the per-record
  fallback ran, `Promise.allSettled` yielding one success/failure outcome
  per record of the batch;
* `crash` — an error escaped both levels into the outer `catch` (where
  every counting statement is still un-run, all of them being guarded by
  the inner try/catch). -/
inductive PersistOutcome (α : Type)
  | bulkOk (saved : List α)
  | bulkFailFallback (perRecord : List Bool)
  | crash

/-- Environment guarantees under which each outcome is produced: a bulk
insert returns at most one document per input record, and `allSettled`
returns exactly one outcome per record. -/
def PersistOutcome.wf {α : Type} : PersistOutcome α → List α → Prop
  | .bulkOk saved, batch => saved.length ≤ batch.length
  | .bulkFailFallback per, batch => per.length = batch.length
  | .crash, _ => True

/-- Model of `importController.processBatchStreamingAsync`, returning the
`(success, errors)` counter pair of its result object
(`\x7b success: successCount, errors: errorCount \x7d`).  On the bulk
path the error count is the defensive shortfall `batch.length -
saved.length`; on the fallback path the settled outcomes are counted one
way or the other; in the outer catch the error count is set to the whole
batch.  (The `addError` reports sent to the tracker on individual
failures are modelled separately by `addErrorM`.) -/
def processBatchStreamingAsync {α : Type} (batch : List α)
    (out : PersistOutcome α) : Nat × Nat :=
  match out with
  | .bulkOk saved =>
    let successCount := saved.length
    (successCount,
      if successCount < batch.length then batch.length - successCount else 0)
  | .bulkFailFallback per =>
    (per.countP (fun r => r), per.countP (fun r => !r))
  | .crash => (0, batch.length)

/-- The final result object built by `processImportWithStreaming` when the
row stream ends without a stream-level error: `success` is
unconditionally `true`, whatever the error counter holds. -/
def mkFinalResult (successfulCount errorCount processedCount : Nat) : ImportResult :=
  .completedR successfulCount errorCount processedCount
    (toString successfulCount ++ " transações importadas com sucesso de " ++
      toString processedCount ++ " processadas")

/-! ## Preview / status endpoints -/

/-- An HTTP reply: a payload, or `reply.status(code).send(message)`. -/
inductive Reply (α : Type)
  | ok (payload : α)
  | err (status : Nat) (message : String)
deriving DecidableEq, Repr

/-- An entry of the controller's `tempStorage` map (the fields the
preview / authorization logic reads). -/
structure UploadData where
  userId : String
  filename : String
deriving DecidableEq, Repr

/-- Model of `importController.getPreview`: 404 when the upload id is unknown,
403 when it belongs to a different owner, the stored data otherwise. -/
def getPreview (storage : List (String × UploadData))
    (uploadId requesterId : String) : Reply UploadData :=
  match storage.lookup uploadId with
  | none => .err 404 "Upload não encontrado ou expirado"
  | some d =>
    if d.userId ≠ requesterId then .err 403 "Não autorizado"
    else .ok d

/-- The status snapshot returned by `GET /import/status/:uploadId`. -/
structure StatusPayload where
  status : ImportStatus
  progress : Int
  processedRows : Nat
  totalRows : Nat
  successfulRows : Nat
  errorRows : Nat
  estimatedTimeRemaining : Option Int
  processingSpeed : Int
  errors : List ErrorEntry
deriving DecidableEq, Repr

/-- The `GET /import/status/:uploadId` handler of `routes.js`: 404 when
no session exists, 403 when the session belongs to a different owner,
otherwise the session snapshot (with the last 10 log entries,
`errors.slice(-10)`). -/
def importStatusRoute (sessions : List (String × Session))
    (uploadId requesterId : String) : Reply StatusPayload :=
  match sessions.lookup uploadId with
  | none => .err 404 "Sessão de importação não encontrada"
  | some s =>
    if s.userId ≠ requesterId then .err 403 "Não autorizado"
    else
      .ok
        { status := s.status
          progress := s.progress
          processedRows := s.processedRows
          totalRows := s.totalRows
          successfulRows := s.successfulRows
          errorRows := s.errorRows
          estimatedTimeRemaining := s.estimatedTimeRemaining
          processingSpeed := s.processingSpeed
          errors := s.errors.drop (s.errors.length - 10) }

/-! ## Helper lemmas -/

theorem countP_id_add_countP_not (l : List Bool) :
    l.countP (fun r => r) + l.countP (fun r => !r) = l.length := by
  induction l with
  | nil => rfl
  | cons b rest ih => cases b <;> simp [List.countP_cons] <;> omega

theorem lookup_mapSet_self (m : List (String × Session)) (k : String) (v : Session) :
    (mapSet m k v).lookup k = some v := by
  simp [mapSet, List.lookup]

theorem jsRound_mono {a b : ℚ} (h : a ≤ b) : jsRound a ≤ jsRound b := by
  unfold jsRound
  rw [Rat.le_floor]
  calc ((Rat.floor (a + 1 / 2) : Int) : ℚ) ≤ a + 1 / 2 := Rat.le_floor.mp (le_refl _)
    _ ≤ b + 1 / 2 := by linarith

theorem progressOf_mono (t : Nat) {p p' : Nat} (ht : 0 < t) (h : p ≤ p') :
    progressOf p t ≤ progressOf p' t := by
  apply jsRound_mono
  have ht' : (0 : ℚ) < (t : ℚ) := by exact_mod_cast ht
  have hp : (p : ℚ) ≤ (p' : ℚ) := by exact_mod_cast h
  gcongr

section RatEval

attribute [local semireducible] Rat.add Rat.mul Rat.inv Rat.sub Rat.ofScientific

theorem jsRound_hundred : jsRound 100 = 100 := by decide

end RatEval

theorem progressOf_self (t : Nat) (ht : 0 < t) : progressOf t t = 100 := by
  unfold progressOf
  rw [div_self (by exact_mod_cast ht.ne' : ((t : ℚ) ≠ 0)), one_mul]
  exact jsRound_hundred

theorem foldl_capAppend_eq_drop (es : List ErrorEntry) :
    es.foldl capAppend [] = es.drop (es.length - 100) := by
  induction es using List.reverseRecOn with
  | nil => rfl
  | append_singleton xs x ih =>
    rw [List.foldl_append, List.foldl_cons, List.foldl_nil, ih]
    by_cases hlen : xs.length ≤ 99
    · have h0 : xs.length - 100 = 0 := by omega
      have h1 : xs.length + 1 - 100 = 0 := by omega
      simp only [capAppend, h0, List.drop_zero, List.length_append, List.length_cons,
        List.length_nil]
      rw [if_neg (by omega), h1, List.drop_zero]
    · have h100 : 100 ≤ xs.length := by omega
      have hD : (xs.drop (xs.length - 100)).length = 100 := by
        rw [List.length_drop]; omega
      simp only [capAppend, List.length_append, hD, List.length_cons, List.length_nil]
      rw [if_pos (by omega)]
      have h1le : (1 : Nat) ≤ (xs.drop (xs.length - 100)).length := by omega
      rw [List.drop_append_of_le_length h1le, List.drop_drop]
      have h2le : xs.length + 1 - 100 ≤ xs.length := by omega
      rw [List.drop_append_of_le_length h2le]
      have h3 : xs.length - 100 + 1 = xs.length + 1 - 100 := by omega
      simp [h3]

theorem errors_foldl_addErrorSession (s : Session) (es : List ErrorEntry) :
    (es.foldl addErrorSession s).errors = es.foldl capAppend s.errors := by
  induction es generalizing s with
  | nil => rfl
  | cons e rest ih => simp [List.foldl_cons, ih, addErrorSession]

theorem daysInMonthZ_bounds (y m : Int) :
    28 ≤ daysInMonthZ y m ∧ daysInMonthZ y m ≤ 31 := by
  unfold daysInMonthZ
  split_ifs <;> omega

theorem daysInMonthZ_december (y : Int) : daysInMonthZ y 12 = 31 := by
  norm_num [daysInMonthZ]

theorem borrowMonths_of_nonneg (fuel : Nat) (y m off : Int) (h : 0 ≤ off) :
    borrowMonths fuel y m off = (y, m, off) := by
  cases fuel with
  | zero => rfl
  | succ n => simp [borrowMonths, not_lt.mpr h]

theorem carryMonths_stop (fuel : Nat) (y m off : Int) (h : off < daysInMonthZ y m) :
    carryMonths fuel y m off = (y, m, off) := by
  cases fuel with
  | zero => rfl
  | succ n => simp [carryMonths, not_le.mpr h]

theorem carryMonths_step (fuel : Nat) (y m off : Int) (h : daysInMonthZ y m ≤ off) :
    carryMonths (fuel + 1) y m off
      = carryMonths fuel (if m = 12 then y + 1 else y) (if m = 12 then 1 else m + 1)
          (off - daysInMonthZ y m) := by
  simp [carryMonths, h]

theorem jsMkDate_year_of_bounds (y mi d : Int) (hmi0 : 0 ≤ mi) (hmi : mi ≤ 11)
    (hd1 : 1 ≤ d) (hd2 : d ≤ 31) : (jsMkDate y mi d).year = y := by
  unfold jsMkDate
  dsimp only
  have hy0 : Int.fdiv (y * 12 + mi) 12 = y := by
    rw [Int.fdiv_eq_ediv _ (by norm_num)]
    omega
  rw [hy0]
  have hm0 : y * 12 + mi - y * 12 + 1 = mi + 1 := by ring
  rw [hm0]
  rw [borrowMonths_of_nonneg _ _ _ _ (by omega)]
  dsimp only
  have hb1 := (daysInMonthZ_bounds y (mi + 1)).1
  have hb2 := (daysInMonthZ_bounds y (mi + 1)).2
  by_cases hc : daysInMonthZ y (mi + 1) ≤ d - 1
  · have hmi11 : mi ≠ 11 := by
      intro h11
      rw [h11] at hc
      norm_num [daysInMonthZ_december y] at hc
      omega
    have hne : mi + 1 ≠ 12 := by omega
    have hfuel : ∃ k, (d - 1).natAbs = k + 1 := ⟨(d - 1).natAbs - 1, by omega⟩
    obtain ⟨k, hk⟩ := hfuel
    rw [hk]
    rw [carryMonths_step _ _ _ _ hc, if_neg hne, if_neg hne]
    have hb1' := (daysInMonthZ_bounds y (mi + 1 + 1)).1
    rw [carryMonths_stop _ _ _ _ (by omega)]
  · rw [carryMonths_stop _ _ _ _ (by omega)]

theorem dropWhile_eq_self_of_all (p : Char → Bool) (l : List Char)
    (h : ∀ c ∈ l, p c = false) : l.dropWhile p = l := by
  cases l with
  | nil => rfl
  | cons c r =>
    exact List.dropWhile_cons_of_neg (by simp [h c (List.mem_cons_self c r)])

theorem jsTrim_eq_self_of_all (cs : List Char)
    (h : ∀ c ∈ cs, jsWhitespace c = false) : jsTrim cs = cs := by
  unfold jsTrim
  rw [dropWhile_eq_self_of_all _ _ h]
  rw [dropWhile_eq_self_of_all _ _ (fun c hc => h c (List.mem_reverse.mp hc))]
  exact List.reverse_reverse cs

theorem takeWhile_append_cons (p : Char → Bool) (xs : List Char) (y : Char)
    (ys : List Char) (hxs : ∀ x ∈ xs, p x = true) (hy : p y = false) :
    (xs ++ y :: ys).takeWhile p = xs := by
  induction xs with
  | nil => simp [List.takeWhile_cons, hy]
  | cons a as ih =>
    have ha := hxs a (List.mem_cons_self a as)
    simp only [List.cons_append, List.takeWhile_cons, ha, if_true]
    rw [ih fun x hx => hxs x (List.mem_cons_of_mem a hx)]

theorem dropWhile_append_cons (p : Char → Bool) (xs : List Char) (y : Char)
    (ys : List Char) (hxs : ∀ x ∈ xs, p x = true) (hy : p y = false) :
    (xs ++ y :: ys).dropWhile p = y :: ys := by
  induction xs with
  | nil => simp [List.dropWhile_cons, hy]
  | cons a as ih =>
    have ha := hxs a (List.mem_cons_self a as)
    simp only [List.cons_append, List.dropWhile_cons, ha, if_true]
    exact ih fun x hx => hxs x (List.mem_cons_of_mem a hx)

theorem takeWhile_eq_self_of_all (p : Char → Bool) (l : List Char)
    (h : ∀ c ∈ l, p c = true) : l.takeWhile p = l := by
  induction l with
  | nil => rfl
  | cons c r ih =>
    simp only [List.takeWhile_cons, h c (List.mem_cons_self c r), if_true]
    rw [ih fun x hx => h x (List.mem_cons_of_mem c hx)]

theorem dropWhile_eq_nil_of_all (p : Char → Bool) (l : List Char)
    (h : ∀ c ∈ l, p c = true) : l.dropWhile p = [] := by
  induction l with
  | nil => rfl
  | cons c r ih =>
    simp only [List.dropWhile_cons, h c (List.mem_cons_self c r), if_true]
    exact ih fun x hx => h x (List.mem_cons_of_mem c hx)

theorem replaceFirst_append_comma (xs ys : List Char) (h : ',' ∉ xs) :
    replaceFirst (xs ++ ',' :: ys) ',' '.' = xs ++ '.' :: ys := by
  induction xs with
  | nil => simp [replaceFirst]
  | cons a as ih =>
    have ha : a ≠ ',' := fun hEq => h (hEq ▸ List.mem_cons_self a as)
    simp only [List.cons_append, replaceFirst, if_neg ha, List.append_eq]
    rw [ih fun hmem => h (List.mem_cons_of_mem a hmem)]

theorem stripRSAux_no_R (cs : List Char) (h : 'R' ∉ cs) :
    stripRSAux false cs = cs := by
  induction cs with
  | nil => rfl
  | cons c rest ih =>
    have hc : c ≠ 'R' := fun hEq => h (hEq ▸ List.mem_cons_self c rest)
    have hrest : 'R' ∉ rest := fun hmem => h (List.mem_cons_of_mem c hmem)
    rw [stripRSAux.eq_def]
    split
    · rename_i heq; exact absurd heq (by simp)
    · rename_i heq; simp at heq; exact absurd heq.1 hc
    · rename_i heq
      injection heq with h1 h2
      subst h1
      subst h2
      rw [if_neg (by simp)]
      rw [ih hrest]

theorem jsSign_no_sign (c : Char) (rest : List Char) (h1 : c ≠ '-') (h2 : c ≠ '+') :
    jsSign (c :: rest) = (false, c :: rest) := by
  rw [jsSign.eq_def]
  split
  · rename_i heq; simp at heq; exact absurd heq.1 h1
  · rename_i heq; simp at heq; exact absurd heq.1 h2
  · rfl

/-! ## Claim theorems -/

/-- C1: for every batch passed to `processBatchStreamingAsync`, the
returned success count plus the returned error count equals the length of
the batch — on the bulk-insert path, the per-record fallback path, and
the outer failure path alike — so no record is dropped or counted under
both strategies. -/
theorem c1_batch_counts_sum {α : Type} (batch : List α) (out : PersistOutcome α)
    (h : out.wf batch) :
    (processBatchStreamingAsync batch out).1 + (processBatchStreamingAsync batch out).2
      = batch.length := by
  cases out with
  | bulkOk saved =>
    simp only [PersistOutcome.wf] at h
    simp only [processBatchStreamingAsync]
    split <;> omega
  | bulkFailFallback per =>
    simp only [PersistOutcome.wf] at h
    simp only [processBatchStreamingAsync]
    rw [← h]
    exact countP_id_add_countP_not per
  | crash =>
    simp [processBatchStreamingAsync]

/-- Witness for C1 at a concrete two-record batch persisted through the
per-record fallback with one success and one failure. -/
theorem c1_batch_counts_sum_witness :
    (processBatchStreamingAsync [0, 1] (PersistOutcome.bulkFailFallback [true, false])).1 +
      (processBatchStreamingAsync [0, 1] (PersistOutcome.bulkFailFallback [true, false])).2 = 2 :=
  c1_batch_counts_sum [0, 1] (PersistOutcome.bulkFailFallback [true, false]) rfl

/-- C2: for every import session and every sequence of `addError` calls,
the error log afterwards holds exactly the most recent entries — the last
100 of the appended sequence, the oldest dropped first — and in
particular its length never exceeds 100. -/
theorem c2_error_log_fifo_cap (uploadId userId filename : String) (totalRows : Nat)
    (now : ℚ) (es : List ErrorEntry) :
    (es.foldl addErrorSession (startImportSession uploadId userId totalRows filename now)).errors
        = es.drop (es.length - 100) ∧
    (es.foldl addErrorSession (startImportSession uploadId userId totalRows filename now)).errors.length
        ≤ 100 := by
  have h : (es.foldl addErrorSession
      (startImportSession uploadId userId totalRows filename now)).errors
        = es.drop (es.length - 100) := by
    rw [errors_foldl_addErrorSession]
    exact foldl_capAppend_eq_drop es
  refine ⟨h, ?_⟩
  rw [h, List.length_drop]
  omega

/-- C5: whenever the row stream reaches its end, the final result object
carries `success = true` whatever the error counter holds, and completing
the session with it makes the terminal status `completed`. -/
theorem c5_stream_end_success (sessions : List (String × Session))
    (uploadId : String) (s : Session) (h : sessions.lookup uploadId = some s)
    (successfulCount errorCount processedCount : Nat) (now : ℚ) :
    (mkFinalResult successfulCount errorCount processedCount).success = true ∧
    ((completeImportSessionM sessions uploadId
        (mkFinalResult successfulCount errorCount processedCount) now).1.lookup uploadId).map
          Session.status = some ImportStatus.completed := by
  constructor
  · rfl
  · simp only [completeImportSessionM, h, ImportResult.success, mkFinalResult]
    rw [lookup_mapSet_self]
    rfl

/-- Witness for C5 at a concrete registered session with a nonzero error
count. -/
theorem c5_stream_end_success_witness :
    (mkFinalResult 2 7 9).success = true ∧
    ((completeImportSessionM [("up1", startImportSession "up1" "u1" 9 "f.csv" 0)] "up1"
        (mkFinalResult 2 7 9) 5000).1.lookup "up1").map Session.status
      = some ImportStatus.completed :=
  c5_stream_end_success [("up1", startImportSession "up1" "u1" 9 "f.csv" 0)] "up1"
    (startImportSession "up1" "u1" 9 "f.csv" 0) rfl 2 7 9 5000

/-- C8: when a stored upload or session exists but belongs to a different
owner, the preview endpoint and the status route answer 403
`Não autorizado`, which is a different reply from the 404 returned when
nothing is stored under the id. -/
theorem c8_foreign_owner_forbidden (storage : List (String × UploadData))
    (sessions : List (String × Session)) (uploadId requesterId : String)
    (d : UploadData) (s : Session)
    (hd : storage.lookup uploadId = some d) (hd2 : d.userId ≠ requesterId)
    (hs : sessions.lookup uploadId = some s) (hs2 : s.userId ≠ requesterId) :
    getPreview storage uploadId requesterId = .err 403 "Não autorizado" ∧
    importStatusRoute sessions uploadId requesterId = .err 403 "Não autorizado" ∧
    getPreview [] uploadId requesterId = .err 404 "Upload não encontrado ou expirado" ∧
    importStatusRoute [] uploadId requesterId = .err 404 "Sessão de importação não encontrada" ∧
    (Reply.err 403 "Não autorizado" : Reply UploadData)
        ≠ (Reply.err 404 "Upload não encontrado ou expirado" : Reply UploadData) ∧
    (Reply.err 403 "Não autorizado" : Reply StatusPayload)
        ≠ (Reply.err 404 "Sessão de importação não encontrada" : Reply StatusPayload) := by
  refine ⟨?_, ?_, ?_, ?_, by decide, by decide⟩
  · simp [getPreview, hd, hd2]
  · simp [importStatusRoute, hs, hs2]
  · simp [getPreview, List.lookup]
  · simp [importStatusRoute, List.lookup]

/-- Witness for C8 at a concrete store owned by `owner` queried by
`other`. -/
theorem c8_foreign_owner_forbidden_witness :
    getPreview [("id1", ⟨"owner", "f.csv"⟩)] "id1" "other" = .err 403 "Não autorizado" ∧
    importStatusRoute [("id1", startImportSession "id1" "owner" 5 "f.csv" 0)] "id1" "other"
        = .err 403 "Não autorizado" ∧
    getPreview [] "id1" "other" = .err 404 "Upload não encontrado ou expirado" ∧
    importStatusRoute [] "id1" "other" = .err 404 "Sessão de importação não encontrada" ∧
    (Reply.err 403 "Não autorizado" : Reply UploadData)
        ≠ (Reply.err 404 "Upload não encontrado ou expirado" : Reply UploadData) ∧
    (Reply.err 403 "Não autorizado" : Reply StatusPayload)
        ≠ (Reply.err 404 "Sessão de importação não encontrada" : Reply StatusPayload) :=
  c8_foreign_owner_forbidden [("id1", ⟨"owner", "f.csv"⟩)]
    [("id1", startImportSession "id1" "owner" 5 "f.csv" 0)] "id1" "other"
    ⟨"owner", "f.csv"⟩ (startImportSession "id1" "owner" 5 "f.csv" 0)
    rfl (by decide) rfl (by decide)

/-- C10: for an upload id with no registered session, `updateProgress`,
`addError` and `completeImportSession` all return leaving the session map
untouched, creating nothing and broadcasting nothing. -/
theorem c10_missing_session_noop (sessions : List (String × Session))
    (uploadId : String) (h : sessions.lookup uploadId = none)
    (u : ProgressUpdate) (msg : String) (row : Option Nat)
    (result : ImportResult) (now : ℚ) :
    updateProgressM sessions uploadId u now = (sessions, []) ∧
    addErrorM sessions uploadId msg row now = (sessions, []) ∧
    completeImportSessionM sessions uploadId result now = (sessions, []) := by
  refine ⟨?_, ?_, ?_⟩ <;> simp [updateProgressM, addErrorM, completeImportSessionM, h]

/-- Witness for C10 at a populated map queried with an unknown id. -/
theorem c10_missing_session_noop_witness :
    updateProgressM [("a", startImportSession "a" "u" 3 "f.csv" 0)] "b" emptyUpdate 10
        = ([("a", startImportSession "a" "u" 3 "f.csv" 0)], []) ∧
    addErrorM [("a", startImportSession "a" "u" 3 "f.csv" 0)] "b" "boom" (some 4) 10
        = ([("a", startImportSession "a" "u" 3 "f.csv" 0)], []) ∧
    completeImportSessionM [("a", startImportSession "a" "u" 3 "f.csv" 0)] "b"
        (ImportResult.failedR "x") 10
        = ([("a", startImportSession "a" "u" 3 "f.csv" 0)], []) :=
  c10_missing_session_noop [("a", startImportSession "a" "u" 3 "f.csv" 0)] "b"
    (by decide) emptyUpdate "boom" (some 4) (ImportResult.failedR "x") 10

/-- C4 (counterexample): a session whose preview row estimate was 2 but
whose stream produced 3 rows ends its final `finalizing` update at
`progress = 150`, not 100 — `totalRows` is an estimate, so the claim's
"exactly 100 at finalizing" fails on the code. -/
theorem updateProgressSession_progress (s : Session) (u : ProgressUpdate) (now : ℚ) :
    (updateProgressSession s u now).progress
      = progressOf (applyUpdate s u).processedRows s.totalRows := by
  unfold updateProgressSession
  dsimp only
  split <;> rfl

theorem updateProgressSession_status (s : Session) (u : ProgressUpdate) (now : ℚ) :
    (updateProgressSession s u now).status = (applyUpdate s u).status := by
  unfold updateProgressSession
  dsimp only
  split <;> rfl

section RatEval2

attribute [local semireducible] Rat.add Rat.mul Rat.inv Rat.sub Rat.ofScientific

theorem c4_progress_counterexample :
    (updateProgressSession (startImportSession "up1" "u1" 2 "f.csv" 0)
        ⟨some 3, some 3, some 0, none, some ImportStatus.finalizing⟩ 1000).status
      = ImportStatus.finalizing ∧
    (updateProgressSession (startImportSession "up1" "u1" 2 "f.csv" 0)
        ⟨some 3, some 3, some 0, none, some ImportStatus.finalizing⟩ 1000).progress
      = 150 := by
  constructor
  · rw [updateProgressSession_status]
    decide
  · rw [updateProgressSession_progress]
    decide

end RatEval2

/-- C4 (amended): every `updateProgress` recomputes `progress` as
`round(100 * processedRows / totalRows)`, which is monotonically
non-decreasing in the processed count (the pipeline only ever reports a
non-decreasing count, and `totalRows` is never updated); the update that
sets status `finalizing` yields `progress` exactly 100 precisely under
the extra assumption that the final processed count equals the session's
`totalRows` estimate. -/
theorem c4_progress_monotone_and_finalizing :
    (∀ (t p p' : Nat), 0 < t → p ≤ p' → progressOf p t ≤ progressOf p' t) ∧
    (∀ (s : Session) (u : ProgressUpdate) (now : ℚ),
        (updateProgressSession s u now).progress
          = progressOf (applyUpdate s u).processedRows s.totalRows) ∧
    (∀ (s : Session) (u : ProgressUpdate) (now : ℚ),
        0 < s.totalRows → u.processedRows = some s.totalRows →
        u.status = some ImportStatus.finalizing →
        (updateProgressSession s u now).progress = 100 ∧
        (updateProgressSession s u now).status = ImportStatus.finalizing) := by
  refine ⟨fun t p p' ht h => progressOf_mono t ht h,
    fun s u now => updateProgressSession_progress s u now, ?_⟩
  intro s u now ht hp hst
  constructor
  · rw [updateProgressSession_progress]
    have hup : (applyUpdate s u).processedRows = s.totalRows := by
      simp [applyUpdate, hp]
    rw [hup]
    exact progressOf_self s.totalRows ht
  · rw [updateProgressSession_status]
    simp [applyUpdate, hst]

/-- Witness for C4 (amended) at a session of 2 estimated rows finishing
with 2 processed rows: the finalizing update reports exactly 100. -/
theorem c4_progress_monotone_and_finalizing_witness :
    (updateProgressSession (startImportSession "up1" "u1" 2 "f.csv" 0)
        ⟨some 2, some 2, some 0, none, some ImportStatus.finalizing⟩ 1000).progress = 100 ∧
    (updateProgressSession (startImportSession "up1" "u1" 2 "f.csv" 0)
        ⟨some 2, some 2, some 0, none, some ImportStatus.finalizing⟩ 1000).status
      = ImportStatus.finalizing :=
  c4_progress_monotone_and_finalizing.2.2 (startImportSession "up1" "u1" 2 "f.csv" 0)
    ⟨some 2, some 2, some 0, none, some ImportStatus.finalizing⟩ 1000
    (by decide) rfl rfl

/-- C6 (counterexample): at the prototypical American-format input
`12/25/2024` (December 25th), the fourth `MM/DD/YYYY` branch is not
reached; the day-first second branch fires instead, reading the first
component as the day — `new Date(2024, 24, 12)`, normalized to
January 12th, 2026. -/
theorem c6_american_branch_counterexample :
    parseDateB "12/25/2024" = ParsedDate.okDate DateBranch.dmy4 ⟨2026, 1, 12⟩ ∧
    reachedAmericanBranch (parseDateB "12/25/2024") = false := by
  constructor <;> decide

/-- C6 (amended): `parseDate` accepts, in priority order, two-digit-year
day/month/year, four-digit-year day/month/year and ISO year-month-day;
the fourth month/day/four-digit-year branch exists in the source but its
regex is identical to the second branch's, so no input ever reaches it
and every `M/D/YYYY`-shaped input is interpreted day-first. -/
theorem c6_date_priority_amended :
    (∀ s : String, reachedAmericanBranch (parseDateB s) = false) ∧
    parseDateB "5/6/24" = ParsedDate.okDate DateBranch.dmy2 ⟨2024, 6, 5⟩ ∧
    parseDateB "5/6/2024" = ParsedDate.okDate DateBranch.dmy4 ⟨2024, 6, 5⟩ ∧
    parseDateB "2024-06-05" = ParsedDate.okDate DateBranch.iso ⟨2024, 6, 5⟩ ∧
    parseDateB "5/1/2024" = ParsedDate.okDate DateBranch.dmy4 ⟨2024, 1, 5⟩ := by
  refine ⟨?_, by decide, by decide, by decide, by decide⟩
  intro s
  unfold parseDateB
  split
  · rfl
  · dsimp only
    cases h1 : extractDDMMYY (jsTrim s.data) with
    | some v => rfl
    | none =>
      cases h2 : extractDDMMYYYY (jsTrim s.data) with
      | some v => rfl
      | none =>
        cases h3 : extractISO (jsTrim s.data) with
        | some v =>
          obtain ⟨y, m, d⟩ := v
          dsimp only
          split <;> rfl
        | none => rfl

/-- C9: every two-digit-year date string accepted by the `D/M/YY` branch
of `parseDate` whose day and month components are in calendar range
parses to a date whose year is `2000 + YY`. -/
theorem c9_two_digit_year_2000 (s : String) (day month year : Nat)
    (h : extractDDMMYY (jsTrim s.data) = some (day, month, year))
    (hd1 : 1 ≤ day) (hd31 : day ≤ 31) (hm1 : 1 ≤ month) (hm12 : month ≤ 12) :
    ∃ dt : JSDate, parseDate s = DateOut.okD dt ∧ dt.year = 2000 + (year : Int) := by
  have hs : s ≠ "" := by
    intro heq
    rw [heq] at h
    rw [(rfl : extractDDMMYY (jsTrim "".data) = none)] at h
    cases h
  refine ⟨jsMkDate ((year : Int) + 2000) ((month : Int) - 1) (day : Int), ?_, ?_⟩
  · have hb : parseDateB s
        = .okDate .dmy2 (jsMkDate ((year : Int) + 2000) ((month : Int) - 1) (day : Int)) := by
      unfold parseDateB
      rw [if_neg hs]
      dsimp only
      rw [h]
    unfold parseDate
    rw [hb]
  · rw [jsMkDate_year_of_bounds ((year : Int) + 2000) ((month : Int) - 1) (day : Int)
      (by omega) (by omega) (by omega) (by omega)]
    omega

/-- Witness for C9 at the concrete input `5/6/24` (June 5th, 2024). -/
theorem c9_two_digit_year_2000_witness :
    ∃ dt : JSDate, parseDate "5/6/24" = DateOut.okD dt ∧
      dt.year = 2000 + ((24 : Nat) : Int) :=
  c9_two_digit_year_2000 "5/6/24" 5 6 24 (by decide) (by decide) (by decide)
    (by decide) (by decide)

theorem ne_of_isDigit {c d : Char} (hc : c.isDigit = true) (hd : d.isDigit = false) :
    c ≠ d := by
  intro h
  rw [h, hd] at hc
  cases hc

theorem jsWhitespace_false_of_isDigit {c : Char} (hc : c.isDigit = true) :
    jsWhitespace c = false := by
  simp only [jsWhitespace, Bool.or_eq_false_iff, decide_eq_false_iff_not]
  exact ⟨⟨⟨ne_of_isDigit hc (by decide), ne_of_isDigit hc (by decide)⟩,
    ne_of_isDigit hc (by decide)⟩, ne_of_isDigit hc (by decide)⟩

/-- C7 (counterexample): the empty/absent amount cell is not a hard
failure — `parseAmount` returns `0` for it. -/
theorem c7_empty_amount_counterexample : parseAmount "" = Except.ok 0 := rfl

/-- C7 (amended): every non-empty amount string whose cleaned form
`parseFloat` cannot turn into a number makes `parseAmount` throw `Valor
inválido` (so the row is recorded as an error); the empty/absent cell is
the exception and yields `0` instead. -/
theorem c7_unparsable_amount_throws :
    (∀ s : String, s ≠ "" → jsParseFloat (cleanAmount s) = none →
        parseAmount s = Except.error ("Valor inválido: " ++ s)) ∧
    parseAmount "" = Except.ok 0 := by
  constructor
  · intro s hs hn
    unfold parseAmount
    rw [if_neg hs, hn]
  · rfl

/-- Witness for C7 (amended) at the concrete unparsable cell `abc`. -/
theorem c7_unparsable_amount_throws_witness :
    parseAmount "abc" = Except.error ("Valor inválido: " ++ "abc") :=
  c7_unparsable_amount_throws.1 "abc" (by decide) (by decide)

section RatEval3

attribute [local semireducible] Rat.add Rat.mul Rat.inv Rat.sub Rat.ofScientific

/-- C3: amount strings with both `.` and `,` are parsed with `.` as a
thousands separator and `,` as the decimal point (`"1.234,56"` ↦
`1234.56`, and in general every digits-and-dots-then-comma-then-digits
string parses to the dot-stripped integer part plus the comma fraction);
a string with only `,` uses the comma as the decimal point; the result is
the absolute value, so `"-50,00"` parses to `50` while
`determineTypeGBMoney` classifies the row as expense because the raw text
begins with `-`. -/
theorem c3_amount_locale_parsing :
    parseAmount "1.234,56" = Except.ok 1234.56 ∧
    parseAmount "1234,56" = Except.ok 1234.56 ∧
    parseAmount "-50,00" = Except.ok 50 ∧
    (∀ desc : String, determineTypeGBMoney "-50,00" desc = BillType.expense) ∧
    (∀ pre post : List Char,
      (∀ c ∈ pre, c.isDigit = true ∨ c = '.') → '.' ∈ pre → post ≠ [] →
      (∀ c ∈ post, c.isDigit = true) →
      parseAmount (String.mk (pre ++ ',' :: post))
        = Except.ok ((digitsVal (pre.filter fun c => c != '.') : ℚ)
            + (digitsVal post : ℚ) / ((10 ^ post.length : ℕ) : ℚ))) := by
  refine ⟨by decide, by decide, by decide, fun desc => rfl, ?_⟩
  intro pre post hpre hdot hpostne hpostd
  -- character-class bookkeeping
  have hclass : ∀ c ∈ pre ++ ',' :: post, c.isDigit = true ∨ c = '.' ∨ c = ',' := by
    intro c hc
    rcases List.mem_append.mp hc with h | h
    · rcases hpre c h with hd | hd
      · exact Or.inl hd
      · exact Or.inr (Or.inl hd)
    · rcases List.mem_cons.mp h with hd | hd
      · exact Or.inr (Or.inr hd)
      · exact Or.inl (hpostd c hd)
  have hsne : String.mk (pre ++ ',' :: post) ≠ "" := by
    intro h
    have hdata : pre ++ ',' :: post = ([] : List Char) := congrArg String.data h
    simp at hdata
  -- the cleaning pipeline
  have hfilterQ : (pre ++ ',' :: post).filter (fun c => c != '"') = pre ++ ',' :: post := by
    rw [List.filter_eq_self]
    intro a ha
    rcases hclass a ha with h | h | h
    · simp [bne_iff_ne]
      exact ne_of_isDigit h (by decide)
    · rw [h]; decide
    · rw [h]; decide
  have hnoR : 'R' ∉ pre ++ ',' :: post := by
    intro hmem
    rcases hclass 'R' hmem with h | h | h
    · cases h
    · cases h
    · cases h
  have hstrip : stripRS (pre ++ ',' :: post) = pre ++ ',' :: post :=
    stripRSAux_no_R _ hnoR
  have hcontDot : (pre ++ ',' :: post).contains '.' = true :=
    List.elem_eq_true_of_mem (List.mem_append.mpr (Or.inl hdot))
  have hcontComma : (pre ++ ',' :: post).contains ',' = true :=
    List.elem_eq_true_of_mem (List.mem_append.mpr (Or.inr (List.mem_cons_self _ _)))
  have hfilterDot : (pre ++ ',' :: post).filter (fun c => c != '.')
      = (pre.filter fun c => c != '.') ++ ',' :: post := by
    rw [List.filter_append]
    congr 1
    rw [List.filter_cons]
    rw [if_pos (by decide)]
    congr 1
    rw [List.filter_eq_self]
    intro a ha
    simp [bne_iff_ne]
    exact ne_of_isDigit (hpostd a ha) (by decide)
  have hpredig : ∀ c ∈ pre.filter (fun c => c != '.'), c.isDigit = true := by
    intro c hc
    obtain ⟨hcp, hcne⟩ := List.mem_filter.mp hc
    rcases hpre c hcp with h | h
    · exact h
    · rw [h] at hcne; cases hcne
  have hreplace : replaceFirst ((pre.filter fun c => c != '.') ++ ',' :: post) ',' '.'
      = (pre.filter fun c => c != '.') ++ '.' :: post := by
    apply replaceFirst_append_comma
    intro hmem
    have := hpredig ',' hmem
    cases this
  have hnows : ∀ c ∈ (pre.filter fun c => c != '.') ++ '.' :: post,
      jsWhitespace c = false := by
    intro c hc
    rcases List.mem_append.mp hc with h | h
    · exact jsWhitespace_false_of_isDigit (hpredig c h)
    · rcases List.mem_cons.mp h with h | h
      · rw [h]; decide
      · exact jsWhitespace_false_of_isDigit (hpostd c h)
  have hclean : cleanAmount (String.mk (pre ++ ',' :: post))
      = (pre.filter fun c => c != '.') ++ '.' :: post := by
    unfold cleanAmount
    dsimp only
    rw [hfilterQ, hstrip, if_pos (by rw [hcontDot, hcontComma]; rfl)]
    rw [hfilterDot, hreplace]
    exact jsTrim_eq_self_of_all _ hnows
  -- parseFloat on the cleaned digits string
  have hpostempty : post.isEmpty = false := by
    cases post with
    | nil => exact absurd rfl hpostne
    | cons a as => rfl
  have hparse : jsParseFloat ((pre.filter fun c => c != '.') ++ '.' :: post)
      = some ((digitsVal (pre.filter fun c => c != '.') : ℚ)
          + (digitsVal post : ℚ) / ((10 ^ post.length : ℕ) : ℚ)) := by
    unfold jsParseFloat
    dsimp only
    rw [dropWhile_eq_self_of_all _ _ hnows]
    have hsign : jsSign ((pre.filter fun c => c != '.') ++ '.' :: post)
        = (false, (pre.filter fun c => c != '.') ++ '.' :: post) := by
      cases hpd : pre.filter (fun c => c != '.') with
      | nil =>
        rw [List.nil_append]
        exact jsSign_no_sign '.' post (by decide) (by decide)
      | cons p ps =>
        have hp : p.isDigit = true := hpredig p (by rw [hpd]; exact List.mem_cons_self p ps)
        rw [List.cons_append]
        exact jsSign_no_sign p (ps ++ '.' :: post)
          (ne_of_isDigit hp (by decide)) (ne_of_isDigit hp (by decide))
    rw [hsign]
    rw [takeWhile_append_cons _ _ _ _ hpredig (by decide)]
    rw [dropWhile_append_cons _ _ _ _ hpredig (by decide)]
    have hfrac : fracSplit ('.' :: post)
        = (post.takeWhile Char.isDigit, post.dropWhile Char.isDigit) := by
      unfold fracSplit
      exact rfl
    rw [hfrac]
    rw [takeWhile_eq_self_of_all _ _ hpostd, dropWhile_eq_nil_of_all _ _ hpostd]
    rw [if_neg (by simp [hpostempty])]
    dsimp only [parseExp]
    norm_num
  have hnonneg : (0 : ℚ) ≤ (digitsVal (pre.filter fun c => c != '.') : ℚ)
      + (digitsVal post : ℚ) / ((10 ^ post.length : ℕ) : ℚ) := by positivity
  unfold parseAmount
  rw [if_neg hsne, hclean, hparse]
  dsimp only
  rw [abs_of_nonneg hnonneg]

/-- Witness for C3 at `pre = "1.234"`, `post = "56"`. -/
theorem c3_amount_locale_parsing_witness :
    parseAmount (String.mk ("1.234".data ++ ',' :: "56".data))
      = Except.ok ((digitsVal ("1.234".data.filter fun c => c != '.') : ℚ)
          + (digitsVal "56".data : ℚ) / ((10 ^ "56".data.length : ℕ) : ℚ)) :=
  c3_amount_locale_parsing.2.2.2.2 "1.234".data "56".data (by decide) (by decide)
    (by decide) (by decide)

end RatEval3

end GBMoney
